import Mathlib

/-
Verification of the note67 recording/transcription core:
shallow embedding of the AEC engine (src-tauri/src/audio/aec.rs),
the live transcription scheduler (src-tauri/src/transcription/live.rs),
the echo/duplicate segment filter and retranscription pipeline
(src-tauri/src/commands/transcription.rs), and the linear-interpolation
resamplers (src-tauri/src/audio/converter.rs and live.rs).

f32/f64 samples and timestamps are modelled as exact rationals; machine
floats only occur in comparisons and blends here, and every concrete
input used below keeps all values exactly representable.
-/

/-! ## Text helpers (Rust `str` methods used by the filters) -/

/-- Substring containment, as Rust `str::contains` on a literal pattern. -/
def containsSub (hay needle : String) : Bool :=
  hay.toList.tails.any (fun t => needle.toList.isPrefixOf t)

/-- Rust `str::split_whitespace`: split on whitespace, dropping empty pieces. -/
def splitWhitespace (s : String) : List String :=
  (s.split Char.isWhitespace).filter (fun w => w ≠ "")

/-- Embeds `should_skip_segment` (identical in live.rs and
commands/transcription.rs): drop recognizer noise/blank artifacts. -/
def should_skip_segment (text : String) : Bool :=
  let text_lower := text.toLower
  containsSub text_lower ("[blank_audio]") ||
  containsSub text_lower ("[inaudible]") ||
  containsSub text_lower ("[ inaudible ]") ||
  containsSub text_lower ("[silence]") ||
  containsSub text_lower ("[music]") ||
  containsSub text_lower ("[applause]") ||
  containsSub text_lower ("[laughter]") ||
  decide (text.trim = "")

/-! ## Echo / duplicate segment filter (commands/transcription.rs) -/

/-- Number of the mic segment's first five lower-cased words that occur among
the system segment's first five lower-cased words (the `matches` count of
`is_echo_of_system`). -/
def echoWordMatches (mic_text sys_text : String) : Nat :=
  let mic_words := (splitWhitespace mic_text.toLower).take 5
  let sys_words := (splitWhitespace sys_text.toLower).take 5
  mic_words.countP (fun w => sys_words.contains w)

/-- Embeds `is_echo_of_system` (commands/transcription.rs lines 29-69):
the loop with `continue`/`return true` is the `List.any` below. -/
def is_echo_of_system (mic_text : String) (mic_start mic_end : ℚ)
    (system_segments : List (ℚ × ℚ × String)) : Bool :=
  if system_segments = [] then false
  else
    let mic_lower := mic_text.toLower
    let mic_words := (splitWhitespace mic_lower).take 5
    if mic_words = [] then false
    else
      system_segments.any (fun t =>
        let sys_start := t.1
        let sys_end := t.2.1
        let sys_text := t.2.2
        let overlap_start := max mic_start sys_start
        let overlap_end := min mic_end sys_end
        if overlap_end - overlap_start < 1 then false
        else
          let sys_words := (splitWhitespace sys_text.toLower).take 5
          let matchCount := mic_words.countP (fun w => sys_words.contains w)
          decide (3 ≤ matchCount ∨ (2 ≤ matchCount ∧ mic_words.length ≤ 3)))

/-! ## Transcript segments and recognition post-processing -/

/-- A recognized transcript segment (transcription/live.rs `TranscriptionSegment`). -/
structure TranscriptionSegment where
  start_time : ℚ
  end_time : ℚ
  text : String
deriving DecidableEq, Repr

/-- Result of a transcription run (transcription module `TranscriptionResult`). -/
structure TranscriptionResult where
  segments : List TranscriptionSegment
  full_text : String
  language : Option String
deriving DecidableEq, Repr

/-- Embeds the segment-extraction loop of `transcribe_samples`
(transcription/live.rs lines 374-413): whisper returns centisecond integer
timestamps `t0`/`t1`; each segment with non-empty trimmed text is kept with
times `t_raw / 100 + time_offset`. -/
def transcribe_samples_segments (raw : List (ℤ × ℤ × String))
    (time_offset : ℚ) : List TranscriptionSegment :=
  raw.filterMap (fun r =>
    let text := r.2.2.trim
    if text = "" then none
    else some ⟨(r.1 : ℚ) / 100 + time_offset, (r.2.1 : ℚ) / 100 + time_offset, text⟩)

/-- Embeds the per-source success branch of the live tick
(transcription/live.rs lines 228-288): on a non-empty recognition result the
stream offset advances to the last segment's end time, the blank/noise filter
is applied, and the surviving segments are appended to the accumulator,
persisted and emitted. Returns (new offset, new accumulator, persisted and
emitted segments of this tick). -/
def live_tick_handle (time_offset : ℚ) (acc result : List TranscriptionSegment) :
    ℚ × List TranscriptionSegment × List TranscriptionSegment :=
  if h : result = [] then (time_offset, acc, [])
  else
    let offset2 := (result.getLast h).end_time
    let valid_segments := result.filter (fun s => !should_skip_segment s.text)
    if valid_segments = [] then (offset2, acc, [])
    else (offset2, acc ++ valid_segments, valid_segments)

/-! ## AEC engine (audio/aec.rs) -/

/-- The initial value `f32::MIN` of `best_correlation` in `estimate_delay`,
written exactly. -/
def f32Min : ℚ := -340282346638528859811704183484516925440

/-- Embeds `estimate_delay` (aec.rs lines 26-54): slide the mic block over the
reference buffer and keep the first offset maximizing the cross-correlation. -/
def estimate_delay (mic reference : List ℚ) (max_delay_samples : Nat) : Nat :=
  if mic = [] ∨ reference = [] then 0
  else
    let search_range := min max_delay_samples (reference.length - mic.length)
    let best := (List.range (search_range + 1)).foldl
      (fun best delay =>
        let samples_to_check := min mic.length (reference.length - delay)
        let correlation : ℚ := ((List.range samples_to_check).map (fun i =>
          if delay + i < reference.length then
            mic.getD i 0 * reference.getD (delay + i) 0
          else 0)).sum
        if best.2 < correlation then (delay, correlation) else best)
      ((0, f32Min) : Nat × ℚ)
    best.1

/-- Embeds `is_double_talk` (aec.rs lines 58-69): mean-square mic energy above
three times the reference energy and above the 1e-6 floor. -/
def is_double_talk (mic reference : List ℚ) : Bool :=
  if mic = [] ∨ reference = [] then false
  else
    let mic_energy := ((mic.map (fun x => x * x)).sum) / (mic.length : ℚ)
    let ref_energy := ((reference.map (fun x => x * x)).sum) / (reference.length : ℚ)
    decide (ref_energy * 3 < mic_energy ∧ 1 / 1000000 < mic_energy)

/-- Embeds `AecProcessor` (aec.rs lines 72-87). -/
structure AecProcessor where
  filter : List ℚ
  reference_buffer : List ℚ
  filter_length : Nat
  base_step_size : ℚ
  epsilon : ℚ
  estimated_delay : Nat
  frame_count : Nat
deriving DecidableEq, Repr

/-- Embeds `AecProcessor::new` (aec.rs lines 94-106); 0.15 idealized to 3/20. -/
def AecProcessor.new (sample_rate max_delay_ms : Nat) : AecProcessor :=
  let filter_length := sample_rate * max_delay_ms / 1000
  { filter := List.replicate filter_length 0
    reference_buffer := List.replicate (filter_length * 2) 0
    filter_length := filter_length
    base_step_size := 3 / 20
    epsilon := 1 / 100000000
    estimated_delay := 0
    frame_count := 0 }

/-- The buffer transformation of `AecProcessor::add_reference` (aec.rs lines
109-117): `rotate_left(shift)` then overwrite the final `shift` slots with the
last `shift` new samples. -/
def addRefBuf (buf samples : List ℚ) : List ℚ :=
  let shift := min samples.length buf.length
  let rotated := buf.drop shift ++ buf.take shift
  rotated.take (rotated.length - shift) ++ samples.drop (samples.length - shift)

/-- Embeds `AecProcessor::add_reference`. -/
def AecProcessor.add_reference (s : AecProcessor) (samples : List ℚ) : AecProcessor :=
  { s with reference_buffer := addRefBuf s.reference_buffer samples }

/-- The body of the per-mic-sample loop of `AecProcessor::process` (aec.rs
lines 152-210), acting on (filter, reference buffer, output) with the
per-block constants passed explicitly. -/
def processLoopStep (filter_length estimated_delay : Nat) (epsilon step_size : ℚ)
    (double_talk : Bool) (mic_len : Nat) (reference_samples : List ℚ)
    (st : List ℚ × List ℚ × List ℚ) (p : Nat × ℚ) : List ℚ × List ℚ × List ℚ :=
  let filt := st.1
  let rb := st.2.1
  let ref_start := rb.length - filter_length - estimated_delay
  let echo_estimate : ℚ := (filt.enum.map (fun q =>
    if ref_start + q.1 < rb.length then q.2 * rb.getD (ref_start + q.1) 0
    else 0)).sum
  let error := p.2 - echo_estimate
  let power : ℚ := ((List.range filter_length).map (fun j =>
    if ref_start + j < rb.length then rb.getD (ref_start + j) 0 * rb.getD (ref_start + j) 0
    else 0)).sum
  let filt2 := if epsilon < power ∧ double_talk = false then
      filt.enum.map (fun q =>
        if ref_start + q.1 < rb.length then
          q.2 + step_size / (power + epsilon) * error * rb.getD (ref_start + q.1) 0
        else q.2)
    else filt
  let rb2 := if p.1 < mic_len - 1 ∧ p.1 < reference_samples.length then
      let rot := rb.drop 1 ++ rb.take 1
      rot.set (rot.length - 1) (reference_samples.getD p.1 0)
    else rb
  (filt2, rb2, st.2.2 ++ [error])

/-- Embeds `AecProcessor::process` (aec.rs lines 125-213): append the reference
block, periodically re-estimate the delay, classify double-talk, then run the
per-sample NLMS loop. Returns the new state and the cleaned output block. -/
def AecProcessor.process (s : AecProcessor) (mic_samples reference_samples : List ℚ) :
    AecProcessor × List ℚ :=
  if mic_samples = [] then (s, [])
  else
    let s1 := s.add_reference reference_samples
    let s2 := { s1 with frame_count := s1.frame_count + 1 }
    let s3 := if s2.frame_count % 10 = 1 then
        { s2 with estimated_delay := estimate_delay mic_samples s2.reference_buffer s2.filter_length }
      else s2
    let double_talk := is_double_talk mic_samples reference_samples
    let step_size := if double_talk then s3.base_step_size * (1 / 10) else s3.base_step_size
    let res := mic_samples.enum.foldl
      (processLoopStep s3.filter_length s3.estimated_delay s3.epsilon step_size
        double_talk mic_samples.length reference_samples)
      (s3.filter, s3.reference_buffer, ([] : List ℚ))
    ({ s3 with filter := res.1, reference_buffer := res.2.1 }, res.2.2)

/-! ## Live transcription session state (transcription/live.rs) -/

/-- Embeds the error used by the start guard. -/
inductive TranscriptionError where
  | AlreadyTranscribing
deriving DecidableEq, Repr

/-- Embeds `LiveTranscriptionState` (live.rs lines 71-90). -/
structure LiveTranscriptionState where
  is_running : Bool
  mic_time_offset : ℚ
  system_time_offset : ℚ
  segments : List TranscriptionSegment
deriving DecidableEq, Repr

/-- Embeds `LiveTranscriptionState::new`. -/
def LiveTranscriptionState.new : LiveTranscriptionState :=
  { is_running := false, mic_time_offset := 0, system_time_offset := 0, segments := [] }

/-- The state touched by `start_live_transcription`: the live session state,
the global AEC processor (`AEC_PROCESSOR`), and the global system-audio
reference window (`SYSTEM_AUDIO_REFERENCE`). -/
structure LiveFullState where
  live : LiveTranscriptionState
  aec : Option AecProcessor
  reference_window : List ℚ
deriving DecidableEq, Repr

/-- Embeds the synchronous part of `start_live_transcription` (live.rs lines
120-144): `is_running.swap(true)` rejects a second start with
`AlreadyTranscribing` and changes nothing else; otherwise the offsets and
segment list are reset, the AEC engine is re-initialized at 16 kHz / 150 ms,
and the reference window is cleared. -/
def start_live_transcription (s : LiveFullState) :
    Option TranscriptionError × LiveFullState :=
  if s.live.is_running then
    (some TranscriptionError.AlreadyTranscribing, { s with live.is_running := true })
  else
    (none,
      { live := { is_running := true, mic_time_offset := 0, system_time_offset := 0,
                  segments := [] }
        aec := some (AecProcessor.new 16000 150)
        reference_window := [] })

/-- Embeds `stop_live_transcription` (live.rs lines 307-324): clear the running
flag and return the accumulated segments with their texts joined by spaces. -/
def stop_live_transcription (s : LiveFullState) : LiveFullState × TranscriptionResult :=
  ({ s with live.is_running := false },
   { segments := s.live.segments
     full_text := String.intercalate (" ") (s.live.segments.map (fun t => t.text))
     language := some ("en") })

/-- One mic-stream tick outcome applied to the session state (live.rs lines
216-288 for the `Mic` source), with the recognition result supplied as data. -/
def live_tick_mic (s : LiveFullState) (result : List TranscriptionSegment) :
    LiveFullState × List TranscriptionSegment :=
  let r := live_tick_handle s.live.mic_time_offset s.live.segments result
  ({ s with live.mic_time_offset := r.1, live.segments := r.2.1 }, r.2.2)

/-! ## Bulk retranscription pipeline (commands/transcription.rs) -/

/-- Embeds the per-item segment selection of `retranscribe_note` (lines
761-845, identical to `retranscribe_audio_segment` lines 574-647): system
segments are kept whenever they pass the blank/noise filter and are collected
as echo references; mic segments are kept when they pass the blank/noise
filter and are not classified as echoes. Returns (persisted system segments,
persisted mic segments). -/
def retranscribe_item_kept (sysResult micResult : List TranscriptionSegment) :
    List TranscriptionSegment × List TranscriptionSegment :=
  let sysKept := sysResult.filter (fun s => !should_skip_segment s.text)
  let system_segments_for_echo := sysKept.map (fun s => (s.start_time, s.end_time, s.text))
  let micKept := micResult.filter (fun s =>
    !should_skip_segment s.text &&
    !is_echo_of_system s.text s.start_time s.end_time system_segments_for_echo)
  (sysKept, micKept)

/-! ## Linear-interpolation resamplers -/

/-- One output sample of `resample` in audio/converter.rs (lines 191-205):
the upper bracketing index is clamped to the last input index. -/
def convResampleAt (samples : List ℚ) (r : ℚ) (i : Nat) : ℚ :=
  let src_idx : ℚ := (i : ℚ) * r
  let idx_floor : Nat := (⌊src_idx⌋).toNat
  let idx_ceil : Nat := min (idx_floor + 1) (samples.length - 1)
  let frac : ℚ := src_idx - (idx_floor : ℚ)
  if idx_floor < samples.length then
    let s1 := samples.getD idx_floor 0
    let s2 := samples.getD idx_ceil 0
    s1 + (s2 - s1) * frac
  else 0

/-- Embeds `resample` of audio/converter.rs (lines 182-209); `r` is
`from_rate / to_rate` and the output length is `ceil(len / r)`. -/
def converter_resample (samples : List ℚ) (from_rate to_rate : Nat) : List ℚ :=
  if from_rate = to_rate then samples
  else
    let r : ℚ := (from_rate : ℚ) / (to_rate : ℚ)
    let output_len : Nat := (⌈(samples.length : ℚ) / r⌉).toNat
    (List.range output_len).map (convResampleAt samples r)

/-- One output sample of `resample` in transcription/live.rs (lines 434-444):
`none` models the loop iteration that pushes nothing when the lower index
overruns; the upper index is clamped to the last input index. -/
def liveResampleAt (samples : List ℚ) (r : ℚ) (i : Nat) : Option ℚ :=
  let src_idx : ℚ := (i : ℚ) / r
  let idx0 : Nat := (⌊src_idx⌋).toNat
  let idx1 : Nat := min (idx0 + 1) (samples.length - 1)
  let frac : ℚ := src_idx - (idx0 : ℚ)
  if idx0 < samples.length then
    some (samples.getD idx0 0 * (1 - frac) + samples.getD idx1 0 * frac)
  else none

/-- Embeds `resample` of transcription/live.rs (lines 429-448); `r` is
`to_rate / from_rate` and the output length is `trunc(len * r)`. -/
def live_resample (samples : List ℚ) (from_rate to_rate : Nat) : List ℚ :=
  let r : ℚ := (to_rate : ℚ) / (from_rate : ℚ)
  let new_len : Nat := (⌊(samples.length : ℚ) * r⌋).toNat
  (List.range new_len).filterMap (liveResampleAt samples r)

/-- Modelled from the spec: the rate-conversion rule of section 4.1, with an
overrunning upper bracketing index contributing silence (0.0) to the blend
instead of being clamped. Used only to state what the spec predicts where it
disagrees with the code. -/
def specResampleSilenceAt (samples : List ℚ) (r : ℚ) (i : Nat) : ℚ :=
  let src_idx : ℚ := (i : ℚ) * r
  let idx_floor : Nat := (⌊src_idx⌋).toNat
  let frac : ℚ := src_idx - (idx_floor : ℚ)
  samples.getD idx_floor 0 * (1 - frac) + samples.getD (idx_floor + 1) 0 * frac

/-- Modelled from the spec: full silence-at-overrun resampler (src rate to dst
rate), with the converter's output length. -/
def specResampleSilence (samples : List ℚ) (from_rate to_rate : Nat) : List ℚ :=
  if from_rate = to_rate then samples
  else
    let r : ℚ := (from_rate : ℚ) / (to_rate : ℚ)
    let output_len : Nat := (⌈(samples.length : ℚ) / r⌉).toNat
    (List.range output_len).map (specResampleSilenceAt samples r)

/-! ## Helper lemmas -/

/-- The last `n` entries of a list, used to state the reference-buffer
invariant. -/
def lastN (n : Nat) (l : List ℚ) : List ℚ := l.drop (l.length - n)

lemma processLoopStep_out (fl ed : Nat) (eps ss : ℚ) (dt : Bool) (ml : Nat)
    (ref : List ℚ) (st : List ℚ × List ℚ × List ℚ) (p : Nat × ℚ) :
    ∃ e, (processLoopStep fl ed eps ss dt ml ref st p).2.2 = st.2.2 ++ [e] := by
  exact ⟨_, rfl⟩

lemma foldl_processLoopStep_out_length (fl ed : Nat) (eps ss : ℚ) (dt : Bool)
    (ml : Nat) (ref : List ℚ) :
    ∀ (l : List (Nat × ℚ)) (st : List ℚ × List ℚ × List ℚ),
      ((l.foldl (processLoopStep fl ed eps ss dt ml ref) st).2.2).length
        = st.2.2.length + l.length := by
  intro l
  induction l with
  | nil => intro st; simp
  | cons p ps ih =>
    intro st
    rw [List.foldl_cons, ih]
    obtain ⟨e, he⟩ := processLoopStep_out fl ed eps ss dt ml ref st p
    rw [he]
    simp
    omega

lemma processLoopStep_filter_double_talk (fl ed : Nat) (eps ss : ℚ) (ml : Nat)
    (ref : List ℚ) (st : List ℚ × List ℚ × List ℚ) (p : Nat × ℚ) :
    (processLoopStep fl ed eps ss true ml ref st p).1 = st.1 := by
  unfold processLoopStep
  simp

lemma foldl_processLoopStep_filter_double_talk (fl ed : Nat) (eps ss : ℚ)
    (ml : Nat) (ref : List ℚ) :
    ∀ (l : List (Nat × ℚ)) (st : List ℚ × List ℚ × List ℚ),
      ((l.foldl (processLoopStep fl ed eps ss true ml ref) st).1) = st.1 := by
  intro l
  induction l with
  | nil => intro st; simp
  | cons p ps ih =>
    intro st
    rw [List.foldl_cons, ih, processLoopStep_filter_double_talk]

/-- C4: for every mic input block of length M and every reference block
(including the empty one), `AecProcessor::process` returns exactly M output
samples; the embedding is a total function, so no input errors. -/
theorem aec_process_output_length (s : AecProcessor) (mic_samples reference_samples : List ℚ) :
    (s.process mic_samples reference_samples).2.length = mic_samples.length := by
  unfold AecProcessor.process
  by_cases h : mic_samples = []
  · subst h; simp
  · rw [if_neg h]
    dsimp only
    rw [foldl_processLoopStep_out_length]
    simp

/-- C2 (code behavior): whenever a processed block is classified as
double-talk, `AecProcessor::process` leaves every filter weight unchanged:
the NLMS update is guarded by `!double_talk`, so the 0.1-scaled step size is
never applied. -/
theorem aec_double_talk_skips_update (s : AecProcessor) (mic_samples reference_samples : List ℚ)
    (h : is_double_talk mic_samples reference_samples = true) :
    (s.process mic_samples reference_samples).1.filter = s.filter := by
  unfold AecProcessor.process
  by_cases hm : mic_samples = []
  · subst hm; simp
  · rw [if_neg hm]
    dsimp only
    rw [h]
    simp only [if_true]
    rw [foldl_processLoopStep_filter_double_talk]
    split <;> simp [AecProcessor.add_reference]

/-- C2 witness: a concrete double-talk block (mic energy 100, reference
energy 1) on a processor whose reference window has positive power; the
filter stays identically zero. -/
theorem aec_double_talk_skips_update_witness :
    is_double_talk [10, 10] [1] = true ∧
    (((AecProcessor.new 1000 2).add_reference [1, 1, 1, 1]).process [10, 10] [1]).1.filter
      = ((AecProcessor.new 1000 2).add_reference [1, 1, 1, 1]).filter :=
  ⟨by with_unfolding_all decide, aec_double_talk_skips_update _ _ _ (by with_unfolding_all decide)⟩

lemma addRefBuf_eq_lastN (buf s : List ℚ) :
    addRefBuf buf s = lastN buf.length (buf ++ s) := by
  unfold addRefBuf lastN
  dsimp only
  have h3 : (buf ++ s).length - buf.length = s.length := by simp
  rcases Nat.le_total s.length buf.length with h | h
  · rw [Nat.min_eq_left h]
    have h1 : (buf.drop s.length).length
        = (buf.drop s.length ++ buf.take s.length).length - s.length := by
      simp
      omega
    rw [List.take_left' h1]
    rw [Nat.sub_self, List.drop_zero, h3, List.drop_append_eq_append_drop,
      Nat.sub_eq_zero_of_le h, List.drop_zero]
  · rw [Nat.min_eq_right h]
    have h2 : (buf.drop buf.length ++ buf.take buf.length).length - buf.length = 0 := by
      simp
    rw [h2, List.take_zero, h3, List.drop_append_eq_append_drop,
      List.drop_eq_nil_of_le h]

lemma addRefBuf_length (buf s : List ℚ) : (addRefBuf buf s).length = buf.length := by
  rw [addRefBuf_eq_lastN]
  unfold lastN
  simp

lemma lastN_append_absorb (N : Nat) (x y : List ℚ) (h : N ≤ x.length) :
    lastN N (lastN N x ++ y) = lastN N (x ++ y) := by
  unfold lastN
  have h1 : (x.drop (x.length - N)).length = N := by simp; omega
  rw [List.drop_append_eq_append_drop, List.drop_append_eq_append_drop]
  rw [List.drop_drop]
  congr 2
  · simp [h1]
    omega
  · simp [h1]
    omega

/-- C3 (amended): iterating `add_reference` alone from any buffer maintains
the spec invariant — after any sequence of `add_reference` calls the reference
buffer is exactly the most recent N samples of everything supplied (preceded
by the initial contents), in chronological order, oldest first. -/
theorem add_reference_keeps_most_recent (blocks : List (List ℚ)) (buf : List ℚ) :
    blocks.foldl addRefBuf buf = lastN buf.length (buf ++ blocks.flatten) := by
  induction blocks generalizing buf with
  | nil => simp [lastN]
  | cons a bs ih =>
    rw [List.foldl_cons, ih, addRefBuf_length, addRefBuf_eq_lastN]
    rw [lastN_append_absorb _ _ _ (by simp)]
    simp [List.append_assoc]

/-- C3 counterexample: one `process` call on a freshly constructed processor
(filter length 2, buffer length 4) violates the invariant: the per-sample
shift inside `process` re-appends `reference_samples[0]` after
`add_reference` already appended the whole block, so the buffer ends as
[3, 4, 5, 1] although the four most recent supplied reference samples are
[2, 3, 4, 5]. -/
theorem aec_reference_buffer_counterexample :
    ((AecProcessor.new 1000 2).process [5, 5] [1, 2, 3, 4, 5]).1.reference_buffer
      = [3, 4, 5, 1] ∧
    lastN 4 (List.replicate 4 0 ++ [1, 2, 3, 4, 5]) = [2, 3, 4, 5] ∧
    ([3, 4, 5, 1] : List ℚ) ≠ [2, 3, 4, 5] := by
  refine ⟨by with_unfolding_all decide, by with_unfolding_all decide, by decide⟩

/-- C1 (amended): the live per-tick loop filters recognition results only
through the blank/noise filter `should_skip_segment` before persisting and
emitting them; the cross-stream echo suppression check is not applied in the
live loop (its input does not even include the system segments), so the
persisted and emitted mic segments of a tick are exactly the blank-filtered
recognition result. -/
theorem live_tick_persists_blank_filtered_only (time_offset : ℚ)
    (acc result : List TranscriptionSegment) :
    (live_tick_handle time_offset acc result).2.2
      = result.filter (fun s => !should_skip_segment s.text) := by
  unfold live_tick_handle
  by_cases h : result = []
  · subst h; simp
  · rw [dif_neg h]
    dsimp only
    by_cases hv : result.filter (fun s => !should_skip_segment s.text) = []
    · rw [if_pos hv, hv]
    · rw [if_neg hv]

/-- C1 counterexample: a mic segment that `is_echo_of_system` classifies as an
echo of an overlapping system segment (five of its first five words match, 5
seconds of overlap) is nevertheless persisted and emitted by the live tick. -/
theorem live_tick_emits_echo_counterexample :
    is_echo_of_system ("hello there how are you") 0 5
        [(0, 5, ("hello there how are you"))] = true ∧
    (live_tick_handle 0 [] [⟨0, 5, ("hello there how are you")⟩]).2.2
      = [⟨0, 5, ("hello there how are you")⟩] := by
  refine ⟨by with_unfolding_all decide, by with_unfolding_all decide⟩

/-- C5: the echo predicate discards a mic segment exactly under the spec rule:
discarded iff some system segment overlaps its time interval by at least 1
second and at least 3 of the first 5 lower-cased words match (at least 2 when
the mic segment has 3 or fewer words); consequently a mic segment with no
1-second overlap with any system segment is always kept regardless of text. -/
theorem echo_filter_rule_iff (mic_text : String) (mic_start mic_end : ℚ)
    (sys : List (ℚ × ℚ × String)) :
    (is_echo_of_system mic_text mic_start mic_end sys = true ↔
      ∃ t ∈ sys, 1 ≤ min mic_end t.2.1 - max mic_start t.1 ∧
        (3 ≤ echoWordMatches mic_text t.2.2 ∨
          (2 ≤ echoWordMatches mic_text t.2.2 ∧
            ((splitWhitespace mic_text.toLower).take 5).length ≤ 3))) ∧
    ((∀ t ∈ sys, min mic_end t.2.1 - max mic_start t.1 < 1) →
      is_echo_of_system mic_text mic_start mic_end sys = false) := by
  have key : is_echo_of_system mic_text mic_start mic_end sys = true ↔
      ∃ t ∈ sys, 1 ≤ min mic_end t.2.1 - max mic_start t.1 ∧
        (3 ≤ echoWordMatches mic_text t.2.2 ∨
          (2 ≤ echoWordMatches mic_text t.2.2 ∧
            ((splitWhitespace mic_text.toLower).take 5).length ≤ 3)) := by
    unfold is_echo_of_system echoWordMatches
    dsimp only
    by_cases hs : sys = []
    · subst hs; simp
    · rw [if_neg hs]
      by_cases hw : (splitWhitespace mic_text.toLower).take 5 = []
      · rw [if_pos hw, hw]
        simp
      · rw [if_neg hw]
        rw [List.any_eq_true]
        constructor
        · rintro ⟨t, ht, hf⟩
          refine ⟨t, ht, ?_⟩
          by_cases hov : min mic_end t.2.1 - max mic_start t.1 < 1
          · rw [if_pos hov] at hf
            exact absurd hf (by simp)
          · rw [if_neg hov] at hf
            exact ⟨not_lt.mp hov, of_decide_eq_true hf⟩
        · rintro ⟨t, ht, h1, h2⟩
          refine ⟨t, ht, ?_⟩
          rw [if_neg (not_lt.mpr h1)]
          exact decide_eq_true h2
  refine ⟨key, fun hno => ?_⟩
  cases hb : is_echo_of_system mic_text mic_start mic_end sys
  · rfl
  · exfalso
    obtain ⟨t, ht, h1, _⟩ := key.mp hb
    exact absurd h1 (not_le.mpr (hno t ht))

/-- C5 witness: identical texts but disjoint time intervals (overlap -5 s)
are kept. -/
theorem echo_filter_rule_iff_witness :
    is_echo_of_system ("completely unrelated words entirely here") 0 5
        [(10, 20, ("completely unrelated words entirely here"))] = false :=
  (echo_filter_rule_iff _ _ _ _).2 (by with_unfolding_all decide)

/-- C7: calling `start_live_transcription` while a session is already running
returns `AlreadyTranscribing` synchronously and changes nothing: the running
flag stays set and the offsets, accumulated segments, AEC engine and reference
window all keep their values (no reset is performed). -/
theorem start_while_running_rejected (s : LiveFullState)
    (h : s.live.is_running = true) :
    start_live_transcription s = (some TranscriptionError.AlreadyTranscribing, s) := by
  obtain ⟨⟨r, mo, so, segs⟩, a, w⟩ := s
  dsimp only at h
  subst h
  rfl

/-- C7 witness: a running session with nonzero offsets, one accumulated
segment and a nonempty reference window is returned unchanged. -/
theorem start_while_running_rejected_witness :
    start_live_transcription ⟨⟨true, 3, 4, [⟨0, 1, ("hello")⟩]⟩, none, [1, 2]⟩
      = (some TranscriptionError.AlreadyTranscribing,
         ⟨⟨true, 3, 4, [⟨0, 1, ("hello")⟩]⟩, none, [1, 2]⟩) :=
  start_while_running_rejected _ rfl

/-- C8 (amended): calling stop when no session is running is a safe no-op
that does not error and leaves the state unchanged, but it returns the
segments accumulated by the most recent session rather than an
unconditionally empty result: the segment list is cleared when a session
starts, not when it stops, so only a state with an empty accumulator yields
an empty result. -/
theorem stop_when_not_running_returns_accumulated (s : LiveFullState)
    (h : s.live.is_running = false) :
    stop_live_transcription s = (s,
      { segments := s.live.segments
        full_text := String.intercalate (" ") (s.live.segments.map (fun t => t.text))
        language := some ("en") }) := by
  obtain ⟨⟨r, mo, so, segs⟩, a, w⟩ := s
  dsimp only at h
  subst h
  rfl

/-- C8 amended-claim witness: a stopped state with one accumulated segment is
returned unchanged together with that segment. -/
theorem stop_when_not_running_returns_accumulated_witness :
    stop_live_transcription ⟨⟨false, 3, 4, [⟨0, 1, ("hello")⟩]⟩, none, []⟩
      = (⟨⟨false, 3, 4, [⟨0, 1, ("hello")⟩]⟩, none, []⟩,
         ⟨[⟨0, 1, ("hello")⟩], ("hello"), some ("en")⟩) := by
  have h := stop_when_not_running_returns_accumulated
    ⟨⟨false, 3, 4, [⟨0, 1, ("hello")⟩]⟩, none, []⟩ rfl
  rw [h]
  with_unfolding_all rfl

/-- State reached by starting a session on a fresh state, accumulating one
mic segment in a tick, and stopping once; used by the C8 counterexample. -/
def afterFirstStop : LiveFullState :=
  (stop_live_transcription
    (live_tick_mic
      (start_live_transcription
        { live := LiveTranscriptionState.new, aec := none, reference_window := [] }).2
      [⟨0, 2, ("we should review the budget")⟩]).1).1

/-- C8 counterexample: after a session has been stopped, a second stop call —
made while nothing is running — returns the previous session's segments, not
the empty result the claim predicts, because stopping does not clear the
accumulator. -/
theorem stop_after_stop_counterexample :
    afterFirstStop.live.is_running = false ∧
    (stop_live_transcription afterFirstStop).2.segments
      = [⟨0, 2, ("we should review the budget")⟩] ∧
    (stop_live_transcription afterFirstStop).2.segments ≠ [] := by
  refine ⟨by with_unfolding_all rfl, by with_unfolding_all decide,
    by with_unfolding_all decide⟩

/-- C9: for a tick whose recognition returns raw whisper segments with
non-negative end timestamps (added to the supplied offset), the stream offset
after the tick is at least the offset passed in — it advances to the last
returned segment's end time on a non-empty result and stays unchanged on an
empty result — so across any sequence of ticks each stream offset is
non-decreasing. -/
theorem tick_offset_monotone (raw : List (ℤ × ℤ × String)) (time_offset : ℚ)
    (acc : List TranscriptionSegment)
    (h : ∀ r ∈ raw, 0 ≤ r.2.1) :
    time_offset
        ≤ (live_tick_handle time_offset acc (transcribe_samples_segments raw time_offset)).1
      ∧ (transcribe_samples_segments raw time_offset = [] →
          (live_tick_handle time_offset acc (transcribe_samples_segments raw time_offset)).1
            = time_offset) := by
  constructor
  · by_cases hres : transcribe_samples_segments raw time_offset = []
    · unfold live_tick_handle
      rw [dif_pos hres]
    · have h1 : (live_tick_handle time_offset acc
            (transcribe_samples_segments raw time_offset)).1
          = ((transcribe_samples_segments raw time_offset).getLast hres).end_time := by
        unfold live_tick_handle
        rw [dif_neg hres]
        dsimp only
        split <;> rfl
      obtain ⟨seg, hseg, hmem⟩ :
          ∃ seg, (transcribe_samples_segments raw time_offset).getLast hres = seg ∧
            seg ∈ transcribe_samples_segments raw time_offset :=
        ⟨_, rfl, List.getLast_mem hres⟩
      rw [h1, hseg]
      unfold transcribe_samples_segments at hmem
      rw [List.mem_filterMap] at hmem
      obtain ⟨r, hr, hsome⟩ := hmem
      by_cases ht : r.2.2.trim = ""
      · rw [if_pos ht] at hsome
        exact Option.noConfusion hsome
      · rw [if_neg ht] at hsome
        rw [← Option.some.inj hsome]
        dsimp only
        have hz : (0 : ℚ) ≤ (r.2.1 : ℚ) / 100 := by
          have := h r hr
          positivity
        linarith
  · intro hres
    unfold live_tick_handle
    rw [dif_pos hres]

/-- C9 witness: a recognizer result ending at raw centisecond 250 with offset
7 advances the offset to 9.5 which is at least 7. -/
theorem tick_offset_monotone_witness :
    (7 : ℚ) ≤ (live_tick_handle 7 []
        (transcribe_samples_segments [(0, 250, (" hi "))] 7)).1 :=
  (tick_offset_monotone [(0, 250, (" hi "))] 7 [] (by decide)).1

instance : BEq TranscriptionSegment := instBEqOfDecidableEq

/-- C6 (amended): the bulk retranscription pipeline applies no
similarity-based deduplication: every candidate system segment passing the
blank/noise filter is persisted with its multiplicity preserved, so
near-duplicate segments (identical text, identical start time) are all kept
rather than reduced to one. -/
theorem retranscribe_keeps_near_duplicates (l m : List TranscriptionSegment)
    (a : TranscriptionSegment) (h : should_skip_segment a.text = false) :
    List.count a (retranscribe_item_kept l m).1 = List.count a l := by
  unfold retranscribe_item_kept
  dsimp only
  rw [List.count_filter]
  rw [h]
  rfl

/-- C6 amended-claim witness: two identical candidate system segments are both
persisted (count 2 in, count 2 out). -/
theorem retranscribe_keeps_near_duplicates_witness :
    List.count (⟨0, 2, ("weekly sync notes")⟩ : TranscriptionSegment)
        (retranscribe_item_kept
          [⟨0, 2, ("weekly sync notes")⟩, ⟨0, 2, ("weekly sync notes")⟩] []).1
      = List.count (⟨0, 2, ("weekly sync notes")⟩ : TranscriptionSegment)
        [⟨0, 2, ("weekly sync notes")⟩, ⟨0, 2, ("weekly sync notes")⟩] :=
  retranscribe_keeps_near_duplicates _ _ _ (by with_unfolding_all decide)

/-- C6 counterexample: two candidate segments with identical normalized text
and start times 0 seconds apart (well within 3 seconds) — duplicates under
the claim's criterion — are both kept by the retranscription pipeline, so it
does not keep exactly one of them. -/
theorem retranscribe_no_dedup_counterexample :
    (retranscribe_item_kept
        [⟨0, 2, ("the quarterly report looks good")⟩,
         ⟨0, 2, ("the quarterly report looks good")⟩] []).1
      = [⟨0, 2, ("the quarterly report looks good")⟩,
         ⟨0, 2, ("the quarterly report looks good")⟩] ∧
    ((retranscribe_item_kept
        [⟨0, 2, ("the quarterly report looks good")⟩,
         ⟨0, 2, ("the quarterly report looks good")⟩] []).1).length ≠ 1 := by
  refine ⟨by with_unfolding_all decide, by with_unfolding_all decide⟩

/-- C10 (amended): in both linear-interpolation resamplers, an output index
whose upper bracketing source index overruns the input buffer is computed by
clamping that index to the last input sample — the blend then reproduces the
last sample — rather than by blending with silence (0.0). -/
theorem resample_overrun_clamped (samples : List ℚ) (rc rl : ℚ) (i j : Nat)
    (h : samples ≠ [])
    (hc : (⌊(i : ℚ) * rc⌋).toNat = samples.length - 1)
    (hl : (⌊(j : ℚ) / rl⌋).toNat = samples.length - 1) :
    convResampleAt samples rc i = samples.getLast h ∧
    liveResampleAt samples rl j = some (samples.getLast h) := by
  have hlen : 0 < samples.length := List.length_pos.mpr h
  have hgetD : samples.getD (samples.length - 1) 0 = samples.getLast h := by
    rw [List.getD_eq_getElem samples 0 (by omega), List.getLast_eq_getElem]
  have hmin : min (samples.length - 1 + 1) (samples.length - 1) = samples.length - 1 := by
    omega
  constructor
  · unfold convResampleAt
    dsimp only
    rw [hc, hmin, if_pos (by omega), hgetD]
    ring
  · unfold liveResampleAt
    dsimp only
    rw [hl, hmin, if_pos (by omega), hgetD]
    congr 1
    ring

/-- C10 amended-claim witness: resampling [0, 2] from 1 Hz to 2 Hz, output
index 3 has fractional source position 1.5, whose upper bracketing index 2 is
past the last input sample; both resamplers produce the last sample 2. -/
theorem resample_overrun_clamped_witness :
    convResampleAt [0, 2] (1 / 2) 3 = 2 ∧ liveResampleAt [0, 2] 2 3 = some 2 := by
  have h := resample_overrun_clamped [0, 2] (1 / 2) 2 3 3 (by decide)
    (by with_unfolding_all decide) (by with_unfolding_all decide)
  rw [h.1, h.2]
  exact ⟨rfl, rfl⟩

/-- C10 counterexample: on input [0, 2] resampled from 1 Hz to 2 Hz, both
implementations produce [0, 1, 2, 2] — the overrunning index 3 repeats the
last sample — while the spec's silence-at-overrun rule produces [0, 1, 2, 1];
the claim fails at output index 3. -/
theorem resample_silence_counterexample :
    converter_resample [0, 2] 1 2 = [0, 1, 2, 2] ∧
    live_resample [0, 2] 1 2 = [0, 1, 2, 2] ∧
    specResampleSilence [0, 2] 1 2 = [0, 1, 2, 1] ∧
    converter_resample [0, 2] 1 2 ≠ specResampleSilence [0, 2] 1 2 ∧
    live_resample [0, 2] 1 2 ≠ specResampleSilence [0, 2] 1 2 := by
  refine ⟨by with_unfolding_all decide, by with_unfolding_all decide,
    by with_unfolding_all decide, by with_unfolding_all decide,
    by with_unfolding_all decide⟩
